import Mathlib

/-!
Shallow embedding of `filter_short_reads.py` (fastq_utils).

Strings are modelled as `List Char`; a text file is modelled as the list of
its lines (each line without its terminating newline, exactly as Python's
`for line in f` followed by `line.rstrip()` would see them — the model keeps
the `rstrip` explicit).  Python `dict`s keyed by read ids with boolean values
are modelled as insertion-ordered association lists.  `sys.exit(-2)` inside
`merge_skip_ids` is modelled by an `Option` result (`none` = abort).
-/

namespace FastqFilter

/-- The ASCII whitespace characters stripped by Python `str.rstrip()`. -/
def isPyWs (c : Char) : Bool :=
  decide (c = ' ' ∨ c = '\t' ∨ c = '\n' ∨ c = '\r' ∨ c = '\x0b' ∨ c = '\x0c')

/-- Python `line.rstrip()`: drop trailing whitespace. -/
def rstrip (s : List Char) : List Char := (s.reverse.dropWhile isPyWs).reverse

/-- The character class `[ \t]` of the first regex in `parse_read_id`. -/
def isWsSpaceTab (c : Char) : Bool := decide (c = ' ' ∨ c = '\t')

/-- Model of `re.sub("[ \t]+.*$", "", s)` for newline-free `s`: truncate at the first
space or tab. -/
def truncAtWhitespace (s : List Char) : List Char :=
  s.takeWhile (fun c => !isWsSpaceTab c)

/-- The separator character class `[\/\.\_\-\:\;]` of `parse_read_id`. -/
def isSepChar (c : Char) : Bool :=
  decide (c = '/' ∨ c = '.' ∨ c = '_' ∨ c = '-' ∨ c = ':' ∨ c = ';')

/-- The mate-marker character class `[012lrLRfrFR53]` of `parse_read_id`. -/
def isMateChar (c : Char) : Bool :=
  decide (c = '0' ∨ c = '1' ∨ c = '2' ∨ c = 'l' ∨ c = 'r' ∨ c = 'L' ∨ c = 'R' ∨
          c = 'f' ∨ c = 'F' ∨ c = '5' ∨ c = '3')

/-- The apostrophe character, i.e. `\'` in the second regex. -/
def apos : Char := Char.ofNat 39

/-- Remove the first occurrence (if any) of `'.'`. -/
def eraseFirstDot : List Char → List Char
  | [] => []
  | c :: rest => if c = '.' then rest else c :: eraseFirstDot rest

/-- Model of `''.join(read_id.rsplit('.', 1))`: remove the last `'.'` (if any). -/
def removeLastDot (s : List Char) : List Char := (eraseFirstDot s.reverse).reverse

/-- Model of `re.sub("[\/\.\_\-\:\;][012lrLRfrFR53]\'*$", "", s)`: if `s` ends in a
separator, then a mate marker, then zero or more apostrophes, remove that
suffix; the `$` anchor makes the match position unique. -/
def stripMateSuffix (s : List Char) : List Char :=
  match s.reverse.dropWhile (fun c => decide (c = apos)) with
  | m :: sep :: rest => if isMateChar m && isSepChar sep then rest.reverse else s
  | _ => s

/-- Model of `parse_read_id(header_line, paired_end_flag)` from the source. -/
def parse_read_id (header_line : List Char) (paired_end_flag : Bool) : List Char :=
  let read_id := truncAtWhitespace header_line
  if paired_end_flag then stripMateSuffix (removeLastDot read_id) else read_id

/-! ### The skip-id dictionary (Python `dict` of `ReadId → Bool`) -/

abbrev ReadId := List Char

/-- Insertion-ordered association list modelling a Python `dict`. -/
abbrev SkipDict := List (ReadId × Bool)

/-- Python `k in d`. -/
def dictMem (d : SkipDict) (k : ReadId) : Bool := d.any (fun kv => decide (kv.1 = k))

/-- Python `d[k]` (as an `Option`, `none` when absent). -/
def dictGet (d : SkipDict) (k : ReadId) : Option Bool :=
  (d.find? (fun kv => decide (kv.1 = k))).map (fun kv => kv.2)

/-- Python `d[k] = v`: update in place if present (keeping insertion order),
otherwise append. -/
def dictSet (d : SkipDict) (k : ReadId) (v : Bool) : SkipDict :=
  if dictMem d k then d.map (fun kv => if kv.1 = k then (kv.1, v) else kv)
  else d ++ [(k, v)]

/-! ### get_skip_ids -/

/-- Model of `line.startswith('@')`. -/
def startsWithAt (line : List Char) : Bool :=
  match line with
  | [] => false
  | c :: _ => decide (c = '@')

/-- Loop state of `get_skip_ids`. -/
structure SkipState where
  this_id : Option ReadId
  counter : Nat
  skip_ids : SkipDict
  deriving Repr

/-- One iteration of the `for line in f` loop of `get_skip_ids`. -/
def skipStep (skip_len : Int) (paired_end_flag : Bool) (st : SkipState)
    (rawLine : List Char) : SkipState :=
  let line := rstrip rawLine
  let counter := if st.counter = 4 then 0 else st.counter
  if startsWithAt line = true ∧ counter = 0 then
    { this_id := some (parse_read_id line paired_end_flag), counter := counter + 1,
      skip_ids := st.skip_ids }
  else
    match st.this_id with
    | some id =>
        { this_id := none, counter := counter + 1,
          skip_ids := if (line.length : Int) ≤ skip_len then dictSet st.skip_ids id true
                      else st.skip_ids }
    | none => { this_id := none, counter := counter + 1, skip_ids := st.skip_ids }

/-- Model of `get_skip_ids(readsfile, skip_len, paired_end_flag)`: the file is given as
its list of lines. -/
def get_skip_ids (lines : List (List Char)) (skip_len : Int)
    (paired_end_flag : Bool) : SkipDict :=
  (lines.foldl (skipStep skip_len paired_end_flag) ⟨none, 0, []⟩).skip_ids

/-! ### write_filtered_output (the filtering loop) -/

/-- Model of `"\n".join(read_buf) + "\n"`. -/
def joinNl (buf : List (List Char)) : List Char :=
  (List.intercalate ['\n'] buf) ++ ['\n']

/-- Loop state of the write loop of `write_filtered_output`; `out` is the text
written to the output stream so far. -/
structure WriteState where
  this_id : Option ReadId
  counter : Nat
  read_buf : List (List Char)
  skip_read : Bool
  out : List Char
  deriving Repr

/-- One iteration of the `for line in f` loop of `write_filtered_output`. -/
def writeStep (skip_ids : SkipDict) (paired_end_flag : Bool) (st : WriteState)
    (rawLine : List Char) : WriteState :=
  let line := rstrip rawLine
  let st1 : WriteState :=
    if st.counter = 4 then
      { this_id := st.this_id, counter := 0, read_buf := [], skip_read := false,
        out := if st.skip_read then st.out else st.out ++ joinNl st.read_buf }
    else st
  let st2 : WriteState :=
    if startsWithAt line = true ∧ st1.counter = 0 then
      let id := parse_read_id line paired_end_flag
      { st1 with this_id := some id,
                 skip_read := if dictMem skip_ids id = true then true else st1.skip_read }
    else st1
  { st2 with counter := st2.counter + 1, read_buf := st2.read_buf ++ [line] }

/-- The filtering loop of `write_filtered_output`, returning the full text
written to the output stream (the name derivation is modelled separately by
`derive_output_path`). -/
def write_filtered_output (skip_ids : SkipDict) (paired_end_flag : Bool)
    (lines : List (List Char)) : List Char :=
  let fin := lines.foldl (writeStep skip_ids paired_end_flag) ⟨none, 0, [], false, []⟩
  if fin.skip_read then fin.out else fin.out ++ joinNl fin.read_buf

/-! ### merge_skip_ids -/

/-- The first loop of `merge_skip_ids`: copy `base` into a fresh dict. -/
def copyLoop (base : SkipDict) : SkipDict :=
  base.foldl (fun m kv => dictSet m kv.1 kv.2) []

/-- The second loop of `merge_skip_ids`; `none` models `sys.exit(-2)` on a
value mismatch. -/
def mergeLoop (base : SkipDict) : SkipDict → SkipDict → Option SkipDict
  | merged, [] => some merged
  | merged, kv :: rest =>
      if dictMem base kv.1 = true ∧ dictGet base kv.1 ≠ some kv.2 then none
      else mergeLoop base (dictSet merged kv.1 kv.2) rest

/-- Model of `merge_skip_ids(base_skip_ids, new_skip_ids)`. -/
def merge_skip_ids (base new : SkipDict) : Option SkipDict :=
  mergeLoop base (copyLoop base) new

/-- The merged dict on the success path (`[]` is never reached for dicts
produced by `get_skip_ids`, see the merge theorems). -/
def merged_skip (base new : SkipDict) : SkipDict :=
  (merge_skip_ids base new).getD []

/-! ### Output-path derivation of write_filtered_output -/

/-- Model of `s.lower()` (ASCII). -/
def toLowerList (s : List Char) : List Char := s.map Char.toLower

/-- Python `s.lower().endswith(suffix)` for an already-lowercase `suffix`. -/
def endsWithCI (suffix s : List Char) : Bool :=
  List.isSuffixOf (toLowerList suffix) (toLowerList s)

/-- Does `s` start with `lit`, comparing characters case-insensitively? -/
def startsWithCI : List Char → List Char → Bool
  | [], _ => true
  | _ :: _, [] => false
  | a :: as, b :: bs => decide (a.toLower = b.toLower) && startsWithCI as bs

/-- Fuel-indexed scanner for `subDelete`; the fuel (initially the string
length) strictly exceeds the number of remaining scan steps, so the `0` case
is never reached from `subDelete`. -/
def subDeleteAux (lit : List Char) : Nat → List Char → List Char
  | 0, s => s
  | _ + 1, [] => []
  | fuel + 1, c :: rest =>
      if startsWithCI lit rest then subDeleteAux lit fuel (rest.drop lit.length)
      else c :: subDeleteAux lit fuel rest

/-- Model of `re.sub(pat, '', s, flags=re.IGNORECASE)` where `pat` is an unescaped `.`
(wildcard: any character) followed by the literal `lit`: delete every
leftmost non-overlapping match, anywhere in the string. -/
def subDelete (lit s : List Char) : List Char := subDeleteAux lit s.length s

/-- The `this_outputfile` computation of `write_filtered_output` (lines
112-129 of the source): note the regex patterns `'.gz'`, `'.fastq'`, `'.fq'`
all begin with an unescaped wildcard `.` and are not anchored at the end. -/
def derive_output_path (outputfile : List Char) (read_direction : Option (List Char)) :
    List Char :=
  let gzip_output := endsWithCI ".gz".toList outputfile
  match read_direction with
  | none => outputfile
  | some dir =>
      let f1 := if gzip_output then subDelete "gz".toList outputfile else outputfile
      let ext := if endsWithCI ".fq".toList f1 then ".fq".toList else ".fastq".toList
      let f2 := subDelete (ext.drop 1) f1
      let f3 := f2 ++ ['.'] ++ dir ++ ext
      if gzip_output then f3 ++ ".gz".toList else f3

/-- Modelled from the spec: the §6 "Output naming" algorithm as worded —
strip a TRAILING `.gz` if present, then strip one TRAILING `.fastq` or `.fq`
extension (default `.fastq`), append `.` + tag, re-append the extension and
the `.gz`.  Kept for comparison with `derive_output_path` (the code). -/
def spec_derive_output_path (outputfile : List Char) (tag : List Char) : List Char :=
  let hasGz := endsWithCI ".gz".toList outputfile
  let s1 := if hasGz then outputfile.take (outputfile.length - 3) else outputfile
  let ext := if endsWithCI ".fq".toList s1 then ".fq".toList
             else if endsWithCI ".fastq".toList s1 then ".fastq".toList
             else ".fastq".toList
  let s2 := if endsWithCI ".fq".toList s1 then s1.take (s1.length - 3)
            else if endsWithCI ".fastq".toList s1 then s1.take (s1.length - 6)
            else s1
  let s3 := s2 ++ ['.'] ++ tag ++ ext
  if hasGz then s3 ++ ".gz".toList else s3

/-! ### main -/

/-- Value of `default_len` from `getargs()`. -/
def default_len : Int := 25

/-- A validated configuration as `main()` receives it; files are given as
line lists; `hasReverse` models the truthiness of `args.reversereads`. -/
structure Args where
  pairedend : Bool
  interleaved : Bool
  hasReverse : Bool
  forwardlines : List (List Char)
  reverselines : List (List Char)
  outputfile : List Char
  length : Int

/-- What a run produced: whether the "no reads to filter" message was
reported, and the `(path, content)` pairs of the files written. -/
structure RunOutput where
  reported_no_filter : Bool
  files : List (List Char × List Char)
  deriving Repr, DecidableEq

/-- Lines 195-197 of `main`: the skip set, merged for split paired-end
(`none` models the `sys.exit(-2)` of a merge mismatch). -/
def mergedSkipOf (a : Args) : Option SkipDict :=
  let skipF := get_skip_ids a.forwardlines a.length a.pairedend
  if a.pairedend = true ∧ a.interleaved = false then
    merge_skip_ids skipF (get_skip_ids a.reverselines a.length a.pairedend)
  else some skipF

/-- Lines 199-221 of `main`: report and write nothing when the skip set is
empty, otherwise write the forward output (tagged `R1` for split paired-end)
and, for split paired-end, the reverse output (tagged `R2`). -/
def mainModel (a : Args) : Option RunOutput :=
  match mergedSkipOf a with
  | none => none
  | some skip_ids =>
      if skip_ids = [] then some ⟨true, []⟩
      else
        let dir1 : Option (List Char) :=
          if a.pairedend = true ∧ a.interleaved = false then some "R1".toList else none
        let file1 := (derive_output_path a.outputfile dir1,
                      write_filtered_output skip_ids a.pairedend a.forwardlines)
        if a.pairedend = true ∧ a.hasReverse = true then
          some ⟨false, [file1,
            (derive_output_path a.outputfile (some "R2".toList),
             write_filtered_output skip_ids a.pairedend a.reverselines)]⟩
        else some ⟨false, [file1]⟩

/-! ### FASTQ records (the spec-level view of a well-formed input file) -/

/-- A 4-line FASTQ record. -/
structure FastqRecord where
  header : List Char
  seqline : List Char
  plusline : List Char
  qualline : List Char
  deriving Repr, DecidableEq

/-- The four lines of a record, in file order. -/
def recordLines (r : FastqRecord) : List (List Char) :=
  [r.header, r.seqline, r.plusline, r.qualline]

/-- The lines of a file holding the given records. -/
def flattenRecords (rs : List FastqRecord) : List (List Char) :=
  (rs.map recordLines).flatten

/-- The normalized id of a record. -/
def recId (paired : Bool) (r : FastqRecord) : ReadId := parse_read_id r.header paired

/-- A line with no trailing whitespace (so `rstrip` leaves it unchanged). -/
def cleanLine (l : List Char) : Prop := rstrip l = l

/-- A well-formed record: the header starts with `'@'` and no line carries
trailing whitespace. -/
def wfRecord (r : FastqRecord) : Prop :=
  startsWithAt r.header = true ∧ cleanLine r.header ∧ cleanLine r.seqline ∧
  cleanLine r.plusline ∧ cleanLine r.qualline

/-- All records of a list are well-formed. -/
def wfRecords (rs : List FastqRecord) : Prop := ∀ r ∈ rs, wfRecord r

instance : DecidablePred wfRecord := fun r => by unfold wfRecord cleanLine; infer_instance

instance (rs : List FastqRecord) : Decidable (wfRecords rs) := by
  unfold wfRecords; infer_instance

/-- Does the record survive filtering against `skip`? -/
def survives (skip : SkipDict) (paired : Bool) (r : FastqRecord) : Bool :=
  !dictMem skip (recId paired r)

/-- The records surviving the filter, in input order. -/
def filteredRecords (skip : SkipDict) (paired : Bool) (rs : List FastqRecord) :
    List FastqRecord :=
  rs.filter (survives skip paired)

/-- The text the spec expects the writer to produce: the surviving records,
each as its four lines newline-terminated, in input order. -/
def expectedOutput (skip : SkipDict) (paired : Bool) (rs : List FastqRecord) :
    List Char :=
  ((filteredRecords skip paired rs).map (fun r => joinNl (recordLines r))).flatten

/-- Two raw headers that are the forward and reverse headers of the same
physical fragment, differing only in their mate-marker character: a shared
prefix, a shared separator, and the two distinct mate markers. -/
def mateHeaders (p : List Char) (sep m1 m2 : Char) (h1 h2 : List Char) : Prop :=
  isSepChar sep = true ∧ isMateChar m1 = true ∧ isMateChar m2 = true ∧ m1 ≠ m2 ∧
  h1 = p ++ [sep, m1] ∧ h2 = p ++ [sep, m2]

instance (p : List Char) (sep m1 m2 : Char) (h1 h2 : List Char) :
    Decidable (mateHeaders p sep m1 m2 h1 h2) := by
  unfold mateHeaders; infer_instance

/-- The effect of one record on the skip dict: insert its id when its
sequence line is short. -/
def shortInsert (T : Int) (paired : Bool) (d : SkipDict) (r : FastqRecord) : SkipDict :=
  if (r.seqline.length : Int) ≤ T then dictSet d (recId paired r) true else d

/-- The skip dict a well-formed record list produces: the ids of the records
whose sequence length is `≤ T`, in input order. -/
def shortIds (T : Int) (paired : Bool) (rs : List FastqRecord) : SkipDict :=
  rs.foldl (shortInsert T paired) []

/-- Every value of the dict is `True` (as in the Python code, which only ever
stores `True`). -/
def allTrueDict (d : SkipDict) : Prop := ∀ kv ∈ d, kv.2 = true

/-! ## Helper lemmas -/

lemma dictMem_nil (k : ReadId) : dictMem [] k = false := rfl

lemma dictMem_cons (kv : ReadId × Bool) (d : SkipDict) (k : ReadId) :
    dictMem (kv :: d) k = (decide (kv.1 = k) || dictMem d k) := by
  simp [dictMem]

lemma dictMem_append (d1 d2 : SkipDict) (k : ReadId) :
    dictMem (d1 ++ d2) k = (dictMem d1 k || dictMem d2 k) := by
  simp [dictMem]

lemma dictMem_map_keys (f : ReadId × Bool → ReadId × Bool)
    (hf : ∀ kv, (f kv).1 = kv.1) (k : ReadId) :
    ∀ d : SkipDict, dictMem (d.map f) k = dictMem d k
  | [] => rfl
  | kv :: d => by
      rw [List.map_cons, dictMem_cons, dictMem_cons, hf kv,
        dictMem_map_keys f hf k d]

lemma dictMem_dictSet (d : SkipDict) (k : ReadId) (v : Bool) (k' : ReadId) :
    dictMem (dictSet d k v) k' = (dictMem d k' || decide (k = k')) := by
  rw [dictSet]
  by_cases h : dictMem d k = true
  · rw [if_pos h, dictMem_map_keys _ (fun kv => by by_cases hkv : kv.1 = k <;> simp [hkv])]
    by_cases hk : k = k'
    · subst hk; simp [h]
    · simp [hk]
  · rw [if_neg h, dictMem_append, dictMem_cons, dictMem_nil]
    simp

lemma allTrue_dictSet (d : SkipDict) (k : ReadId) (hd : allTrueDict d) :
    allTrueDict (dictSet d k true) := by
  intro kv hkv
  rw [dictSet] at hkv
  by_cases h : dictMem d k = true
  · rw [if_pos h] at hkv
    obtain ⟨kv', hkv', hmap⟩ := List.mem_map.mp hkv
    by_cases hk : kv'.1 = k
    · rw [if_pos hk] at hmap; rw [← hmap]
    · rw [if_neg hk] at hmap; rw [← hmap]; exact hd kv' hkv'
  · rw [if_neg h] at hkv
    rcases List.mem_append.mp hkv with hin | hsing
    · exact hd kv hin
    · simp at hsing; rw [hsing]

lemma allTrue_skipStep (T : Int) (p : Bool) (st : SkipState) (line : List Char)
    (h : allTrueDict st.skip_ids) : allTrueDict (skipStep T p st line).skip_ids := by
  obtain ⟨tid, c, d⟩ := st
  rw [skipStep]
  by_cases hc : startsWithAt (rstrip line) = true ∧ (if c = 4 then 0 else c) = 0
  · simp only [if_pos hc]; exact h
  · simp only [if_neg hc]
    cases tid with
    | none => exact h
    | some id =>
        simp only
        by_cases hl : ((rstrip line).length : Int) ≤ T
        · simp only [if_pos hl]; exact allTrue_dictSet d id h
        · simp only [if_neg hl]; exact h

lemma allTrue_foldl_skip (T : Int) (p : Bool) :
    ∀ (ls : List (List Char)) (st : SkipState), allTrueDict st.skip_ids →
      allTrueDict ((ls.foldl (skipStep T p) st).skip_ids)
  | [], _, h => h
  | l :: ls, st, h =>
      allTrue_foldl_skip T p ls (skipStep T p st l) (allTrue_skipStep T p st l h)

lemma allTrue_get_skip (ls : List (List Char)) (T : Int) (p : Bool) :
    allTrueDict (get_skip_ids ls T p) :=
  allTrue_foldl_skip T p ls ⟨none, 0, []⟩ (by intro kv h; simp at h)

lemma dictGet_of_allTrue (k : ReadId) :
    ∀ d : SkipDict, allTrueDict d → dictMem d k = true → dictGet d k = some true
  | [], _, hm => by simp [dictMem] at hm
  | kv :: d, hd, hm => by
      by_cases h : kv.1 = k
      · have : dictGet (kv :: d) k = some kv.2 := by
          simp [dictGet, List.find?_cons, h]
        rw [this, hd kv (List.mem_cons_self kv d)]
      · have hrec : dictMem d k = true := by
          rw [dictMem_cons] at hm
          simpa [h] using hm
        have : dictGet (kv :: d) k = dictGet d k := by
          simp [dictGet, List.find?_cons, h]
        rw [this]
        exact dictGet_of_allTrue k d (fun x hx => hd x (List.mem_cons_of_mem kv hx)) hrec

lemma mergeLoop_union (base : SkipDict) (hb : allTrueDict base) :
    ∀ (new merged : SkipDict), allTrueDict new →
      ∃ K, mergeLoop base merged new = some K ∧
        ∀ k, dictMem K k = (dictMem merged k || dictMem new k)
  | [], merged, _ => ⟨merged, rfl, fun k => by simp [dictMem]⟩
  | kv :: new, merged, hn => by
      have hv : kv.2 = true := hn kv (List.mem_cons_self kv new)
      have hcond : ¬(dictMem base kv.1 = true ∧ dictGet base kv.1 ≠ some kv.2) := by
        rintro ⟨hm, hg⟩
        exact hg (by rw [dictGet_of_allTrue kv.1 base hb hm, hv])
      rw [mergeLoop, if_neg hcond]
      obtain ⟨K, hK, hmem⟩ := mergeLoop_union base hb new (dictSet merged kv.1 kv.2)
        (fun x hx => hn x (List.mem_cons_of_mem kv hx))
      refine ⟨K, hK, fun k => ?_⟩
      rw [hmem k, dictMem_dictSet, dictMem_cons]
      rw [Bool.or_assoc]

lemma mem_copy_foldl (k : ReadId) :
    ∀ (l m : SkipDict),
      dictMem (l.foldl (fun m kv => dictSet m kv.1 kv.2) m) k =
        (dictMem m k || dictMem l k)
  | [], m => by simp [dictMem]
  | kv :: l, m => by
      rw [List.foldl_cons, mem_copy_foldl k l, dictMem_dictSet, dictMem_cons,
        Bool.or_assoc]

lemma dictMem_copyLoop (base : SkipDict) (k : ReadId) :
    dictMem (copyLoop base) k = dictMem base k := by
  rw [copyLoop, mem_copy_foldl]
  rfl

lemma merge_union (base new : SkipDict) (hb : allTrueDict base) (hn : allTrueDict new) :
    merge_skip_ids base new = some (merged_skip base new) ∧
      ∀ k, dictMem (merged_skip base new) k = (dictMem base k || dictMem new k) := by
  obtain ⟨K, hK, hmem⟩ := mergeLoop_union base hb new (copyLoop base) hn
  have hms : merge_skip_ids base new = some K := hK
  have hsk : merged_skip base new = K := by rw [merged_skip, hms]; rfl
  refine ⟨by rw [hms, hsk], fun k => ?_⟩
  rw [hsk, hmem k, dictMem_copyLoop]

/-! ## Helper lemmas: get_skip_ids over well-formed records -/

lemma skip_record (T : Int) (p : Bool) (d : SkipDict) (r : FastqRecord)
    (hr : wfRecord r) :
    List.foldl (skipStep T p) ⟨none, 4, d⟩ (recordLines r) =
      ⟨none, 4, shortInsert T p d r⟩ := by
  obtain ⟨hAt, hch, hcs, hcp, hcq⟩ := hr
  rw [cleanLine] at hch hcs hcp hcq
  simp [recordLines, skipStep, hch, hcs, hcp, hcq, hAt, shortInsert, recId]

lemma skip_ids_zero_four (T : Int) (p : Bool) (d : SkipDict) (ls : List (List Char)) :
    ((ls.foldl (skipStep T p) ⟨none, 0, d⟩).skip_ids) =
      ((ls.foldl (skipStep T p) ⟨none, 4, d⟩).skip_ids) := by
  cases ls with
  | nil => rfl
  | cons x xs =>
      have hstep : skipStep T p ⟨none, 0, d⟩ x = skipStep T p ⟨none, 4, d⟩ x := by
        simp [skipStep]
      rw [List.foldl_cons, List.foldl_cons, hstep]

lemma flattenRecords_nil : flattenRecords [] = [] := rfl

lemma flattenRecords_cons (r : FastqRecord) (rs : List FastqRecord) :
    flattenRecords (r :: rs) = recordLines r ++ flattenRecords rs := by
  simp [flattenRecords]

lemma skip_run (T : Int) (p : Bool) :
    ∀ (rs : List FastqRecord) (d : SkipDict), wfRecords rs →
      List.foldl (skipStep T p) ⟨none, 4, d⟩ (flattenRecords rs) =
        ⟨none, 4, rs.foldl (shortInsert T p) d⟩
  | [], d, _ => by rw [flattenRecords_nil]; rfl
  | r :: rs, d, h => by
      have hr : wfRecord r := h r (List.mem_cons_self r rs)
      have hrs : wfRecords rs := fun x hx => h x (List.mem_cons_of_mem r hx)
      rw [flattenRecords_cons, List.foldl_append, skip_record T p d r hr,
        skip_run T p rs (shortInsert T p d r) hrs, List.foldl_cons]

/-- Lemma: `get_skip_ids` on a well-formed record file computes exactly the dict of
short-read ids, in input order. -/
lemma get_skip_ids_eq (T : Int) (p : Bool) (rs : List FastqRecord)
    (h : wfRecords rs) :
    get_skip_ids (flattenRecords rs) T p = shortIds T p rs := by
  rw [get_skip_ids, skip_ids_zero_four, skip_run T p rs [] h]
  rfl

lemma mem_short_foldl (T : Int) (p : Bool) :
    ∀ (rs : List FastqRecord) (d : SkipDict) (k : ReadId),
      dictMem (rs.foldl (shortInsert T p) d) k = true ↔
        (dictMem d k = true ∨ ∃ r ∈ rs, recId p r = k ∧ (r.seqline.length : Int) ≤ T)
  | [], d, k => by simp
  | r :: rs, d, k => by
      rw [List.foldl_cons, mem_short_foldl T p rs (shortInsert T p d r) k, shortInsert]
      by_cases hs : (r.seqline.length : Int) ≤ T
      · rw [if_pos hs]
        simp only [dictMem_dictSet, Bool.or_eq_true, decide_eq_true_eq,
          List.mem_cons]
        constructor
        · rintro (⟨hd | hid⟩ | ⟨x, hx, hxk, hxs⟩)
          · exact Or.inl hd
          · exact Or.inr ⟨r, Or.inl rfl, hid, hs⟩
          · exact Or.inr ⟨x, Or.inr hx, hxk, hxs⟩
        · rintro (hd | ⟨x, hx | hx, hxk, hxs⟩)
          · exact Or.inl (Or.inl hd)
          · subst hx; exact Or.inl (Or.inr hxk)
          · exact Or.inr ⟨x, hx, hxk, hxs⟩
      · rw [if_neg hs]
        simp only [List.mem_cons]
        constructor
        · rintro (hd | ⟨x, hx, hxk, hxs⟩)
          · exact Or.inl hd
          · exact Or.inr ⟨x, Or.inr hx, hxk, hxs⟩
        · rintro (hd | ⟨x, hx | hx, hxk, hxs⟩)
          · exact Or.inl hd
          · subst hx; exact absurd hxs hs
          · exact Or.inr ⟨x, hx, hxk, hxs⟩

/-- Membership in the skip dict of a well-formed record file: exactly the
normalized ids of records with a short sequence line. -/
lemma mem_get_skip_ids (T : Int) (p : Bool) (rs : List FastqRecord)
    (h : wfRecords rs) (k : ReadId) :
    dictMem (get_skip_ids (flattenRecords rs) T p) k = true ↔
      ∃ r ∈ rs, recId p r = k ∧ (r.seqline.length : Int) ≤ T := by
  rw [get_skip_ids_eq T p rs h, shortIds, mem_short_foldl]
  simp [dictMem]

lemma takeWhile_all {f : Char → Bool} :
    ∀ l : List Char, (∀ c ∈ l, f c = true) → l.takeWhile f = l
  | [], _ => rfl
  | c :: l, h => by
      have hc : f c = true := h c (List.mem_cons_self c l)
      have hl := takeWhile_all l (fun x hx => h x (List.mem_cons_of_mem c hx))
      simp [List.takeWhile_cons, hc, hl]

lemma takeWhile_append_stop {f : Char → Bool} :
    ∀ p xs : List Char, (∃ c ∈ p, f c = false) → (p ++ xs).takeWhile f = p.takeWhile f
  | [], _, h => by simp at h
  | c :: p, xs, h => by
      by_cases hc : f c = true
      · have h' : ∃ x ∈ p, f x = false := by
          obtain ⟨d, hd, hdf⟩ := h
          rcases List.mem_cons.mp hd with rfl | hd'
          · exact absurd hc (by simp [hdf])
          · exact ⟨d, hd', hdf⟩
        simp [List.takeWhile_cons, hc, takeWhile_append_stop p xs h']
      · simp only [Bool.not_eq_true] at hc
        simp [List.takeWhile_cons, hc]

lemma sep_not_ws {c : Char} (h : isSepChar c = true) : isWsSpaceTab c = false := by
  rw [isSepChar, decide_eq_true_eq] at h
  rcases h with rfl | rfl | rfl | rfl | rfl | rfl <;> decide

lemma mate_not_ws {c : Char} (h : isMateChar c = true) : isWsSpaceTab c = false := by
  rw [isMateChar, decide_eq_true_eq] at h
  rcases h with rfl | rfl | rfl | rfl | rfl | rfl | rfl | rfl | rfl | rfl | rfl <;> decide

lemma mate_ne_dot {c : Char} (h : isMateChar c = true) : ¬(c = '.') := by
  rw [isMateChar, decide_eq_true_eq] at h
  rcases h with rfl | rfl | rfl | rfl | rfl | rfl | rfl | rfl | rfl | rfl | rfl <;> decide

lemma mate_ne_apos {c : Char} (h : isMateChar c = true) : ¬(c = apos) := by
  rw [isMateChar, decide_eq_true_eq] at h
  rcases h with rfl | rfl | rfl | rfl | rfl | rfl | rfl | rfl | rfl | rfl | rfl <;> decide

/-- For a header of the form `p ++ [sep, m]` with a whitespace-free prefix, a
non-dot separator and a mate marker, `parse_read_id` in paired mode returns
the prefix with its last dot removed — independently of the marker. -/
lemma parse_mate_suffix (p : List Char) (sep m : Char)
    (hsep : isSepChar sep = true) (hdot : sep ≠ '.') (hm : isMateChar m = true)
    (hp : ∀ c ∈ p, isWsSpaceTab c = false) :
    parse_read_id (p ++ [sep, m]) true = (eraseFirstDot p.reverse).reverse := by
  have htrunc : truncAtWhitespace (p ++ [sep, m]) = p ++ [sep, m] := by
    apply takeWhile_all
    intro c hc
    rcases List.mem_append.mp hc with hcp | hcs
    · simp [hp c hcp]
    · rcases List.mem_cons.mp hcs with rfl | hcs'
      · simp [sep_not_ws hsep]
      · rcases List.mem_cons.mp hcs' with rfl | h0
        · simp [mate_not_ws hm]
        · simp at h0
  have hrev : (p ++ [sep, m]).reverse = m :: sep :: p.reverse := by
    simp
  have hdotrm : removeLastDot (p ++ [sep, m]) =
      (eraseFirstDot p.reverse).reverse ++ [sep, m] := by
    rw [removeLastDot, hrev]
    rw [eraseFirstDot, if_neg (mate_ne_dot hm)]
    rw [eraseFirstDot, if_neg hdot]
    simp
  have hstrip : stripMateSuffix ((eraseFirstDot p.reverse).reverse ++ [sep, m]) =
      (eraseFirstDot p.reverse).reverse := by
    have hdw : ((eraseFirstDot p.reverse).reverse ++ [sep, m]).reverse.dropWhile
        (fun c => decide (c = apos)) = m :: sep :: eraseFirstDot p.reverse := by
      rw [List.reverse_append]
      simp only [List.reverse_cons, List.reverse_nil, List.nil_append,
        List.reverse_reverse, List.cons_append, List.nil_append]
      rw [List.dropWhile_cons]
      simp [mate_ne_apos hm]
    rw [stripMateSuffix, hdw]
    simp only [hm, hsep, Bool.and_self, if_true]
  show stripMateSuffix (removeLastDot (truncAtWhitespace (p ++ [sep, m]))) =
    (eraseFirstDot p.reverse).reverse
  rw [htrunc, hdotrm, hstrip]

/-- Claim C2 (amended), core form: two headers sharing a whitespace-handling
prefix and a separator other than `'.'`, differing only in the mate marker,
normalize identically in paired mode. -/
lemma parse_mate_eq (p : List Char) (sep m1 m2 : Char)
    (hsep : isSepChar sep = true) (hdot : sep ≠ '.')
    (hm1 : isMateChar m1 = true) (hm2 : isMateChar m2 = true) :
    parse_read_id (p ++ [sep, m1]) true = parse_read_id (p ++ [sep, m2]) true := by
  by_cases hws : ∀ c ∈ p, isWsSpaceTab c = false
  · rw [parse_mate_suffix p sep m1 hsep hdot hm1 hws,
        parse_mate_suffix p sep m2 hsep hdot hm2 hws]
  · push_neg at hws
    obtain ⟨c, hc, hcf⟩ := hws
    have hcf' : (fun c => !isWsSpaceTab c) c = false := by
      simp only [Bool.not_eq_false] at hcf
      simp [hcf]
    have h1 : truncAtWhitespace (p ++ [sep, m1]) = truncAtWhitespace p :=
      takeWhile_append_stop p [sep, m1] ⟨c, hc, hcf'⟩
    have h2 : truncAtWhitespace (p ++ [sep, m2]) = truncAtWhitespace p :=
      takeWhile_append_stop p [sep, m2] ⟨c, hc, hcf'⟩
    show stripMateSuffix (removeLastDot (truncAtWhitespace (p ++ [sep, m1]))) =
      stripMateSuffix (removeLastDot (truncAtWhitespace (p ++ [sep, m2])))
    rw [h1, h2]

/-- The skip set a one-file run builds covers every short read of that file
(the hypothesis of the idempotence theorem, for single-end and interleaved
runs). -/
lemma skip_covers_short (T : Int) (p : Bool) (rs : List FastqRecord)
    (hwf : wfRecords rs) :
    ∀ r ∈ rs, (r.seqline.length : Int) ≤ T →
      dictMem (get_skip_ids (flattenRecords rs) T p) (recId p r) = true :=
  fun r hr hs => (mem_get_skip_ids T p rs hwf (recId p r)).mpr ⟨r, hr, rfl, hs⟩

/-- The merged skip set of a split paired-end run covers every short read of
the forward file (and symmetrically of the reverse file, by the union
equation) — the hypothesis of the idempotence theorem for split runs. -/
lemma merged_covers_short (T : Int) (rsF rsR : List FastqRecord)
    (hwfF : wfRecords rsF) :
    ∀ r ∈ rsF, (r.seqline.length : Int) ≤ T →
      dictMem (merged_skip (get_skip_ids (flattenRecords rsF) T true)
        (get_skip_ids (flattenRecords rsR) T true)) (recId true r) = true := by
  intro r hr hs
  obtain ⟨-, hmem⟩ := merge_union (get_skip_ids (flattenRecords rsF) T true)
    (get_skip_ids (flattenRecords rsR) T true)
    (allTrue_get_skip _ _ _) (allTrue_get_skip _ _ _)
  rw [hmem, (mem_get_skip_ids T true rsF hwfF (recId true r)).mpr ⟨r, hr, rfl, hs⟩,
    Bool.true_or]

lemma short_foldl_id (T : Int) (p : Bool) :
    ∀ (rs : List FastqRecord) (d : SkipDict),
      (∀ r ∈ rs, ¬((r.seqline.length : Int) ≤ T)) →
      rs.foldl (shortInsert T p) d = d
  | [], _, _ => rfl
  | r :: rs, d, h => by
      rw [List.foldl_cons, shortInsert, if_neg (h r (List.mem_cons_self r rs))]
      exact short_foldl_id T p rs d (fun x hx => h x (List.mem_cons_of_mem r hx))

/-- On a well-formed record file with no short read, the skip dict is empty. -/
lemma get_skip_ids_nil_of_long (T : Int) (p : Bool) (rs : List FastqRecord)
    (hwf : wfRecords rs) (hlong : ∀ r ∈ rs, T < (r.seqline.length : Int)) :
    get_skip_ids (flattenRecords rs) T p = [] := by
  rw [get_skip_ids_eq T p rs hwf, shortIds]
  exact short_foldl_id T p rs [] (fun r hr => not_le.mpr (hlong r hr))

/-! ## Helper lemmas: write_filtered_output over well-formed records -/

/-- The final flush after the loop (`if not skip_read: out.write(...)`). -/
def finalizeWrite (st : WriteState) : List Char :=
  if st.skip_read then st.out else st.out ++ joinNl st.read_buf

lemma write_filtered_output_eq_finalize (K : SkipDict) (p : Bool)
    (lines : List (List Char)) :
    write_filtered_output K p lines =
      finalizeWrite (lines.foldl (writeStep K p) ⟨none, 0, [], false, []⟩) := rfl

lemma write_record (K : SkipDict) (p : Bool) (tid : Option ReadId)
    (buf : List (List Char)) (sk : Bool) (out : List Char) (r : FastqRecord)
    (hr : wfRecord r) :
    List.foldl (writeStep K p) ⟨tid, 4, buf, sk, out⟩ (recordLines r) =
      ⟨some (recId p r), 4, recordLines r, dictMem K (recId p r),
       if sk then out else out ++ joinNl buf⟩ := by
  obtain ⟨hAt, hch, hcs, hcp, hcq⟩ := hr
  rw [cleanLine] at hch hcs hcp hcq
  by_cases hm : dictMem K (recId p r) = true <;>
    simp [recordLines, writeStep, hch, hcs, hcp, hcq, hAt, recId, hm]

lemma write_record_init (K : SkipDict) (p : Bool) (r : FastqRecord)
    (hr : wfRecord r) :
    List.foldl (writeStep K p) ⟨none, 0, [], false, []⟩ (recordLines r) =
      ⟨some (recId p r), 4, recordLines r, dictMem K (recId p r), []⟩ := by
  obtain ⟨hAt, hch, hcs, hcp, hcq⟩ := hr
  rw [cleanLine] at hch hcs hcp hcq
  by_cases hm : dictMem K (recId p r) = true <;>
    simp [recordLines, writeStep, hch, hcs, hcp, hcq, hAt, recId, hm]

lemma expectedOutput_nil (K : SkipDict) (p : Bool) : expectedOutput K p [] = [] := rfl

lemma expectedOutput_cons (K : SkipDict) (p : Bool) (r : FastqRecord)
    (rs : List FastqRecord) :
    expectedOutput K p (r :: rs) =
      (if dictMem K (recId p r) = true then [] else joinNl (recordLines r)) ++
        expectedOutput K p rs := by
  rw [expectedOutput, expectedOutput, filteredRecords, filteredRecords,
    List.filter_cons]
  by_cases hm : dictMem K (recId p r) = true
  · simp [survives, hm]
  · simp [survives, Bool.not_eq_true] at hm ⊢
    simp [hm]

lemma write_run (K : SkipDict) (p : Bool) :
    ∀ (rs : List FastqRecord) (tid : Option ReadId) (buf : List (List Char))
      (sk : Bool) (out : List Char), wfRecords rs →
      finalizeWrite (List.foldl (writeStep K p) ⟨tid, 4, buf, sk, out⟩
          (flattenRecords rs)) =
        (if sk then out else out ++ joinNl buf) ++ expectedOutput K p rs
  | [], tid, buf, sk, out, _ => by
      rw [flattenRecords_nil, List.foldl_nil, expectedOutput_nil, List.append_nil]
      rfl
  | r :: rs, tid, buf, sk, out, h => by
      have hr : wfRecord r := h r (List.mem_cons_self r rs)
      have hrs : wfRecords rs := fun x hx => h x (List.mem_cons_of_mem r hx)
      rw [flattenRecords_cons, List.foldl_append, write_record K p tid buf sk out r hr,
        write_run K p rs (some (recId p r)) (recordLines r) (dictMem K (recId p r))
          (if sk then out else out ++ joinNl buf) hrs,
        expectedOutput_cons]
      by_cases hm : dictMem K (recId p r) = true <;> simp [hm]

/-- The writer on a non-empty well-formed record file produces exactly the
surviving records, each written unchanged as four newline-terminated lines,
in input order. -/
lemma write_eq (K : SkipDict) (p : Bool) (rs : List FastqRecord)
    (h : wfRecords rs) (hne : rs ≠ []) :
    write_filtered_output K p (flattenRecords rs) = expectedOutput K p rs := by
  obtain ⟨r, rs', rfl⟩ : ∃ r rs', rs = r :: rs' := by
    cases rs with
    | nil => exact absurd rfl hne
    | cons a l => exact ⟨a, l, rfl⟩
  have hr : wfRecord r := h r (List.mem_cons_self r rs')
  have hrs : wfRecords rs' := fun x hx => h x (List.mem_cons_of_mem r hx)
  rw [write_filtered_output_eq_finalize, flattenRecords_cons, List.foldl_append,
    write_record_init K p r hr,
    write_run K p rs' (some (recId p r)) (recordLines r) (dictMem K (recId p r)) [] hrs,
    expectedOutput_cons]
  by_cases hm : dictMem K (recId p r) = true <;> simp [hm]

/-! ## Concrete sample records for witnesses and counterexamples -/

/-- A long (26-base) single-end record with id `@A`. -/
def recA : FastqRecord :=
  ⟨"@A".toList, "ACGTACGTACGTACGTACGTACGTAC".toList, "+".toList,
   "IIIIIIIIIIIIIIIIIIIIIIIIII".toList⟩

/-- A short (4-base) single-end record with id `@B`. -/
def recB : FastqRecord := ⟨"@B".toList, "ACGT".toList, "+".toList, "IIII".toList⟩

/-- A short (4-base) record sharing header `@A` with `recA`. -/
def recAshort : FastqRecord := ⟨"@A".toList, "ACGT".toList, "+".toList, "IIII".toList⟩

/-- A short (10-base) forward mate with header `@PAIR.7/1`. -/
def fwdP : FastqRecord :=
  ⟨"@PAIR.7/1".toList, "ACGTACGTAC".toList, "+".toList, "IIIIIIIIII".toList⟩

/-- A long (40-base) reverse mate with header `@PAIR.7/2`. -/
def revP : FastqRecord :=
  ⟨"@PAIR.7/2".toList, "ACGTACGTACGTACGTACGTACGTACGTACGTACGTACGT".toList,
   "+".toList, "IIIIIIIIIIIIIIIIIIIIIIIIIIIIIIIIIIIIIIII".toList⟩

/-- A record whose sequence line carries a trailing space (so `rstrip`
changes it). -/
def recDirty : FastqRecord := ⟨"@D".toList, "AC ".toList, "+".toList, "III".toList⟩

/-! ## Theorems -/

/-- Claim C3 counterexample: `parse_read_id("@SIM.1/1", true)` does NOT
return `"@SIM.1"` — the `rsplit('.', 1)` step removes the last dot first,
so the result is `"@SIM1"`. -/
theorem sim_header_value_ce :
    parse_read_id "@SIM.1/1".toList true ≠ "@SIM.1".toList := by decide

/-- Claim C3 (amended): `parse_read_id("@SIM.1/1", true)` and
`parse_read_id("@SIM.1/2", true)` both return exactly the string `"@SIM1"`
(the last `'.'` is removed, then the `"/1"` or `"/2"` mate suffix is
stripped). -/
theorem sim_header_value :
    parse_read_id "@SIM.1/1".toList true = "@SIM1".toList ∧
    parse_read_id "@SIM.1/2".toList true = "@SIM1".toList := by decide

/-- Claim C10: on a zero-line input stream the final unconditional flush of
the empty record buffer still executes, so `write_filtered_output` writes
exactly one newline character, for any skip set and either mode. -/
theorem writer_empty_newline (skip_ids : SkipDict) (paired_end_flag : Bool) :
    write_filtered_output skip_ids paired_end_flag [] = ['\n'] := rfl

/-- Claim C6 (code bug): the output path is NOT obtained by stripping a
trailing `.gz` / `.fastq` / `.fq` and re-assembling.  The patterns `'.gz'`,
`'.fastq'`, `'.fq'` passed to `re.sub` treat the dot as a wildcard and are
not anchored, so every occurrence is deleted: on base name `"afq.fq"` with
tag `"R1"` the code produces `".R1.fq"` while the spec's algorithm produces
`"afq.R1.fq"`. -/
theorem output_path_eval_bug :
    derive_output_path "afq.fq".toList (some "R1".toList) = ".R1.fq".toList ∧
    spec_derive_output_path "afq.fq".toList "R1".toList = "afq.R1.fq".toList ∧
    derive_output_path "afq.fq".toList (some "R1".toList) ≠
      spec_derive_output_path "afq.fq".toList "R1".toList := by decide

/-- Claim C2 counterexample: the headers `"@SRR5891520.1.1"` (forward) and
`"@SRR5891520.1.2"` (reverse) — the very dotted convention the source
comment mentions — differ only in their mate-marker character, yet
normalize to the distinct strings `"@SRR5891520.11"` and `"@SRR5891520.12"`:
after the last dot is removed the mate marker is no longer preceded by a
separator, so the suffix regex does not strip it. -/
theorem mate_invariance_ce :
    mateHeaders "@SRR5891520.1".toList '.' '1' '2'
      "@SRR5891520.1.1".toList "@SRR5891520.1.2".toList ∧
    parse_read_id "@SRR5891520.1.1".toList true ≠
      parse_read_id "@SRR5891520.1.2".toList true := by
  constructor
  · refine ⟨by decide, by decide, by decide, by decide, by decide, by decide⟩
  · decide

/-- Claim C2 (amended): for two raw headers of the same physical fragment
that differ only in their mate-marker character, `parse_read_id` with
`paired_end_flag = true` returns the same string PROVIDED the separator
preceding the marker is not `'.'` (for the dot separator the prior
last-dot-removal step destroys the separator and the two mates keep their
distinct markers, as the counterexample shows). -/
theorem mate_invariance_nondot (p : List Char) (sep m1 m2 : Char)
    (h1 h2 : List Char) (hmate : mateHeaders p sep m1 m2 h1 h2)
    (hdot : sep ≠ '.') :
    parse_read_id h1 true = parse_read_id h2 true := by
  obtain ⟨hsep, hm1, hm2, _, rfl, rfl⟩ := hmate
  exact parse_mate_eq p sep m1 m2 hsep hdot hm1 hm2

theorem mate_invariance_nondot_witness :
    mateHeaders "@SIM.1".toList '/' '1' '2' "@SIM.1/1".toList "@SIM.1/2".toList ∧
    '/' ≠ '.' ∧
    parse_read_id "@SIM.1/1".toList true = parse_read_id "@SIM.1/2".toList true :=
  ⟨by decide, by decide,
   mate_invariance_nondot "@SIM.1".toList '/' '1' '2' _ _ (by decide) (by decide)⟩

/-- Claim C5 counterexample: the claim is not true for EVERY input stream.
For the empty input stream (zero records) the writer does not produce the
empty concatenation of surviving records — it writes a single stray newline
(the unconditional final flush); and a surviving record whose sequence line
carries trailing whitespace is not written unchanged (the loop rstrips every
line). -/
theorem writer_empty_input_ce :
    write_filtered_output [] false (flattenRecords []) ≠
      expectedOutput [] false [] ∧
    write_filtered_output [] false (flattenRecords [recDirty]) ≠
      expectedOutput [] false [recDirty] := by decide

/-- Claim C5 (amended): for every NON-EMPTY well-formed input stream (4-line
records, `'@'`-headers, no trailing whitespace) and every skip set, the
writer's output is exactly the concatenation, in input order, of the
records whose normalized id is absent from the skip set, each written
unchanged as its four newline-terminated lines. -/
theorem writer_subsequence (K : SkipDict) (p : Bool) (rs : List FastqRecord)
    (hwf : wfRecords rs) (hne : rs ≠ []) :
    write_filtered_output K p (flattenRecords rs) = expectedOutput K p rs :=
  write_eq K p rs hwf hne

theorem writer_subsequence_witness :
    wfRecords [recA, recB] ∧ ([recA, recB] ≠ ([] : List FastqRecord)) ∧
    write_filtered_output [("@A".toList, true)] false (flattenRecords [recA, recB]) =
      expectedOutput [("@A".toList, true)] false [recA, recB] :=
  ⟨by decide, by decide,
   writer_subsequence [("@A".toList, true)] false [recA, recB] (by decide) (by decide)⟩

/-- Claim C4 counterexample: two records sharing the normalized id `@A`, one
long (26 bases) and one short (4 bases), with the default threshold 25: the
long record does NOT appear in the output even though its sequence length
exceeds the threshold, because its duplicate id is in the skip set. -/
theorem threshold_single_end_ce :
    write_filtered_output (get_skip_ids (flattenRecords [recA, recAshort]) 25 false)
        false (flattenRecords [recA, recAshort]) ≠
      (([recA, recAshort].filter (fun r => (25 : Int) < (r.seqline.length : Int))).map
        (fun r => joinNl (recordLines r))).flatten := by decide

/-- Claim C4 (amended): in single-end mode, on a non-empty well-formed input
whose records have pairwise-distinct normalized ids, a record appears in the
output iff its sequence length is `> T`; the threshold default is 25 and the
comparison is inclusive (`<= T` drops). -/
theorem threshold_single_end (T : Int) (rs : List FastqRecord)
    (hwf : wfRecords rs) (hne : rs ≠ [])
    (hdist : (rs.map (recId false)).Nodup) :
    default_len = 25 ∧
    write_filtered_output (get_skip_ids (flattenRecords rs) T false) false
        (flattenRecords rs) =
      ((rs.filter (fun r => T < (r.seqline.length : Int))).map
        (fun r => joinNl (recordLines r))).flatten := by
  refine ⟨rfl, ?_⟩
  rw [write_eq _ _ rs hwf hne, expectedOutput, filteredRecords]
  have hfil : rs.filter (survives (get_skip_ids (flattenRecords rs) T false) false) =
      rs.filter (fun r => decide (T < (r.seqline.length : Int))) := by
    apply List.filter_congr
    intro r hr
    have hmem := mem_get_skip_ids T false rs hwf (recId false r)
    by_cases hs : (r.seqline.length : Int) ≤ T
    · have hin : dictMem (get_skip_ids (flattenRecords rs) T false) (recId false r) =
          true := hmem.mpr ⟨r, hr, rfl, hs⟩
      rw [survives, hin]
      simp only [Bool.not_true]
      symm
      rw [decide_eq_false_iff_not]
      exact not_lt.mpr hs
    · have hnm : dictMem (get_skip_ids (flattenRecords rs) T false) (recId false r) =
          false := by
        rw [Bool.eq_false_iff]
        intro hc
        obtain ⟨r', hr', hid, hs'⟩ := hmem.mp hc
        have : r' = r := List.inj_on_of_nodup_map hdist hr' hr hid
        subst this
        exact hs hs'
      rw [survives, hnm]
      simp only [Bool.not_false]
      symm
      rw [decide_eq_true_eq]
      exact not_le.mp hs
  rw [hfil]

theorem threshold_single_end_witness :
    wfRecords [recA, recB] ∧ ([recA, recB] ≠ ([] : List FastqRecord)) ∧
    ([recA, recB].map (recId false)).Nodup ∧
    (default_len = 25 ∧
     write_filtered_output (get_skip_ids (flattenRecords [recA, recB]) 25 false) false
         (flattenRecords [recA, recB]) =
       (([recA, recB].filter (fun r => (25 : Int) < (r.seqline.length : Int))).map
         (fun r => joinNl (recordLines r))).flatten) :=
  ⟨by decide, by decide, by decide,
   threshold_single_end 25 [recA, recB] (by decide) (by decide) (by decide)⟩

/-- Claim C7: merging two skip dicts produced by `get_skip_ids` always
succeeds (the historical mismatch abort `sys.exit(-2)` is unreachable, since
every stored value is `True`), and membership in the merged dict is exactly
the union of memberships. -/
theorem merge_union_no_mismatch (l1 l2 : List (List Char)) (T1 T2 : Int)
    (p1 p2 : Bool) :
    merge_skip_ids (get_skip_ids l1 T1 p1) (get_skip_ids l2 T2 p2) =
      some (merged_skip (get_skip_ids l1 T1 p1) (get_skip_ids l2 T2 p2)) ∧
    ∀ k, dictMem (merged_skip (get_skip_ids l1 T1 p1) (get_skip_ids l2 T2 p2)) k =
      (dictMem (get_skip_ids l1 T1 p1) k || dictMem (get_skip_ids l2 T2 p2) k) :=
  merge_union _ _ (allTrue_get_skip l1 T1 p1) (allTrue_get_skip l2 T2 p2)

/-- Claim C1: in a split paired-end run, for mated records whose headers
normalize to the same id, if either mate's sequence length is `≤ T` then the
shared id is in the merged skip set (so both mates' records are omitted from
their respective outputs), and each output file is exactly the input records
whose normalized id is absent from the merged skip set. -/
theorem pair_sync_merged_skip (T : Int) (rsF rsR : List FastqRecord)
    (rF rR : FastqRecord)
    (hwfF : wfRecords rsF) (hwfR : wfRecords rsR)
    (hF : rF ∈ rsF) (hR : rR ∈ rsR)
    (hid : recId true rF = recId true rR)
    (hshort : (rF.seqline.length : Int) ≤ T ∨ (rR.seqline.length : Int) ≤ T) :
    merge_skip_ids (get_skip_ids (flattenRecords rsF) T true)
        (get_skip_ids (flattenRecords rsR) T true) =
      some (merged_skip (get_skip_ids (flattenRecords rsF) T true)
        (get_skip_ids (flattenRecords rsR) T true)) ∧
    dictMem (merged_skip (get_skip_ids (flattenRecords rsF) T true)
        (get_skip_ids (flattenRecords rsR) T true)) (recId true rF) = true ∧
    dictMem (merged_skip (get_skip_ids (flattenRecords rsF) T true)
        (get_skip_ids (flattenRecords rsR) T true)) (recId true rR) = true ∧
    write_filtered_output (merged_skip (get_skip_ids (flattenRecords rsF) T true)
        (get_skip_ids (flattenRecords rsR) T true)) true (flattenRecords rsF) =
      expectedOutput (merged_skip (get_skip_ids (flattenRecords rsF) T true)
        (get_skip_ids (flattenRecords rsR) T true)) true rsF ∧
    write_filtered_output (merged_skip (get_skip_ids (flattenRecords rsF) T true)
        (get_skip_ids (flattenRecords rsR) T true)) true (flattenRecords rsR) =
      expectedOutput (merged_skip (get_skip_ids (flattenRecords rsF) T true)
        (get_skip_ids (flattenRecords rsR) T true)) true rsR := by
  obtain ⟨hsome, hmem⟩ := merge_union (get_skip_ids (flattenRecords rsF) T true)
    (get_skip_ids (flattenRecords rsR) T true)
    (allTrue_get_skip _ _ _) (allTrue_get_skip _ _ _)
  have hFmem : dictMem (merged_skip (get_skip_ids (flattenRecords rsF) T true)
      (get_skip_ids (flattenRecords rsR) T true)) (recId true rF) = true := by
    rw [hmem]
    rcases hshort with hs | hs
    · have hin : dictMem (get_skip_ids (flattenRecords rsF) T true) (recId true rF) =
          true := (mem_get_skip_ids T true rsF hwfF _).mpr ⟨rF, hF, rfl, hs⟩
      rw [hin, Bool.true_or]
    · have hin : dictMem (get_skip_ids (flattenRecords rsR) T true) (recId true rR) =
          true := (mem_get_skip_ids T true rsR hwfR _).mpr ⟨rR, hR, rfl, hs⟩
      rw [hid, hin, Bool.or_true]
  have hRmem : dictMem (merged_skip (get_skip_ids (flattenRecords rsF) T true)
      (get_skip_ids (flattenRecords rsR) T true)) (recId true rR) = true := by
    rw [← hid]; exact hFmem
  exact ⟨hsome, hFmem, hRmem,
    write_eq _ _ rsF hwfF (List.ne_nil_of_mem hF),
    write_eq _ _ rsR hwfR (List.ne_nil_of_mem hR)⟩

theorem pair_sync_merged_skip_witness :
    wfRecords [fwdP] ∧ wfRecords [revP] ∧ fwdP ∈ [fwdP] ∧ revP ∈ [revP] ∧
    recId true fwdP = recId true revP ∧
    (((fwdP.seqline.length : Int) ≤ 25) ∨ ((revP.seqline.length : Int) ≤ 25)) ∧
    (merge_skip_ids (get_skip_ids (flattenRecords [fwdP]) 25 true)
        (get_skip_ids (flattenRecords [revP]) 25 true) =
      some (merged_skip (get_skip_ids (flattenRecords [fwdP]) 25 true)
        (get_skip_ids (flattenRecords [revP]) 25 true)) ∧
    dictMem (merged_skip (get_skip_ids (flattenRecords [fwdP]) 25 true)
        (get_skip_ids (flattenRecords [revP]) 25 true)) (recId true fwdP) = true ∧
    dictMem (merged_skip (get_skip_ids (flattenRecords [fwdP]) 25 true)
        (get_skip_ids (flattenRecords [revP]) 25 true)) (recId true revP) = true ∧
    write_filtered_output (merged_skip (get_skip_ids (flattenRecords [fwdP]) 25 true)
        (get_skip_ids (flattenRecords [revP]) 25 true)) true (flattenRecords [fwdP]) =
      expectedOutput (merged_skip (get_skip_ids (flattenRecords [fwdP]) 25 true)
        (get_skip_ids (flattenRecords [revP]) 25 true)) true [fwdP] ∧
    write_filtered_output (merged_skip (get_skip_ids (flattenRecords [fwdP]) 25 true)
        (get_skip_ids (flattenRecords [revP]) 25 true)) true (flattenRecords [revP]) =
      expectedOutput (merged_skip (get_skip_ids (flattenRecords [fwdP]) 25 true)
        (get_skip_ids (flattenRecords [revP]) 25 true)) true [revP]) :=
  ⟨by decide, by decide, by decide, by decide, by decide, by decide,
   pair_sync_merged_skip 25 [fwdP] [revP] fwdP revP (by decide) (by decide)
     (by decide) (by decide) (by decide) (by decide)⟩

/-- Claim C8: when no input record is short (sequence length `≤ T`), the
merged skip set is empty, `main` writes no output file and reports that no
reads were filtered. -/
theorem empty_skip_no_output (a : Args) (rsF rsR : List FastqRecord)
    (hF : a.forwardlines = flattenRecords rsF) (hwfF : wfRecords rsF)
    (hlongF : ∀ r ∈ rsF, a.length < (r.seqline.length : Int))
    (hR : a.reverselines = flattenRecords rsR) (hwfR : wfRecords rsR)
    (hlongR : ∀ r ∈ rsR, a.length < (r.seqline.length : Int)) :
    mainModel a = some ⟨true, []⟩ := by
  have hsF : get_skip_ids a.forwardlines a.length a.pairedend = [] := by
    rw [hF]; exact get_skip_ids_nil_of_long _ _ rsF hwfF hlongF
  have hsR : get_skip_ids a.reverselines a.length a.pairedend = [] := by
    rw [hR]; exact get_skip_ids_nil_of_long _ _ rsR hwfR hlongR
  have hms : mergedSkipOf a = some [] := by
    rw [mergedSkipOf]
    by_cases hc : a.pairedend = true ∧ a.interleaved = false
    · rw [if_pos hc, hsF, hsR]; rfl
    · rw [if_neg hc, hsF]
  rw [mainModel, hms]
  rfl

theorem empty_skip_no_output_witness :
    (Args.mk false false false (flattenRecords [recA]) (flattenRecords [])
        "out.fastq".toList 25).forwardlines = flattenRecords [recA] ∧
    wfRecords [recA] ∧
    (∀ r ∈ [recA],
      (Args.mk false false false (flattenRecords [recA]) (flattenRecords [])
        "out.fastq".toList 25).length < (r.seqline.length : Int)) ∧
    (Args.mk false false false (flattenRecords [recA]) (flattenRecords [])
        "out.fastq".toList 25).reverselines = flattenRecords [] ∧
    wfRecords ([] : List FastqRecord) ∧
    (∀ r ∈ ([] : List FastqRecord),
      (Args.mk false false false (flattenRecords [recA]) (flattenRecords [])
        "out.fastq".toList 25).length < (r.seqline.length : Int)) ∧
    mainModel (Args.mk false false false (flattenRecords [recA]) (flattenRecords [])
        "out.fastq".toList 25) = some ⟨true, []⟩ :=
  ⟨by decide, by decide, by decide, by decide, by decide, by decide,
   empty_skip_no_output _ [recA] [] (by decide) (by decide) (by decide)
     (by decide) (by decide) (by decide)⟩

/-- Claim C9: re-running the filter, with the same threshold and mode, on
the output of a run whose skip set covered every short read (as every run's
skip set does) yields an empty skip set — zero additional reads dropped —
and rewrites the already-filtered content unchanged. -/
theorem filter_idempotent (T : Int) (p : Bool) (rs : List FastqRecord)
    (K : SkipDict) (hwf : wfRecords rs)
    (hK : ∀ r ∈ rs, (r.seqline.length : Int) ≤ T → dictMem K (recId p r) = true)
    (hne : filteredRecords K p rs ≠ []) :
    get_skip_ids (flattenRecords (filteredRecords K p rs)) T p = [] ∧
    write_filtered_output (get_skip_ids (flattenRecords (filteredRecords K p rs)) T p)
        p (flattenRecords (filteredRecords K p rs)) =
      ((filteredRecords K p rs).map (fun r => joinNl (recordLines r))).flatten := by
  have hwf' : wfRecords (filteredRecords K p rs) :=
    fun r hr => hwf r (List.mem_of_mem_filter hr)
  have hlong : ∀ r ∈ filteredRecords K p rs, T < (r.seqline.length : Int) := by
    intro r hr
    by_contra hshort
    have hrin : r ∈ rs := List.mem_of_mem_filter hr
    have hsurv : survives K p r = true := List.of_mem_filter hr
    rw [survives, Bool.not_eq_true'] at hsurv
    rw [hK r hrin (not_lt.mp hshort)] at hsurv
    exact absurd hsurv (by decide)
  have hempty : get_skip_ids (flattenRecords (filteredRecords K p rs)) T p = [] :=
    get_skip_ids_nil_of_long T p _ hwf' hlong
  refine ⟨hempty, ?_⟩
  rw [hempty, write_eq [] p _ hwf' hne, expectedOutput, filteredRecords]
  have hall : (filteredRecords K p rs).filter (survives [] p) = filteredRecords K p rs :=
    List.filter_eq_self.mpr (fun r _ => rfl)
  rw [hall]

theorem filter_idempotent_witness :
    wfRecords [recA, recB] ∧
    (∀ r ∈ [recA, recB], (r.seqline.length : Int) ≤ 25 →
      dictMem (get_skip_ids (flattenRecords [recA, recB]) 25 false)
        (recId false r) = true) ∧
    filteredRecords (get_skip_ids (flattenRecords [recA, recB]) 25 false) false
      [recA, recB] ≠ [] ∧
    (get_skip_ids (flattenRecords (filteredRecords
        (get_skip_ids (flattenRecords [recA, recB]) 25 false) false [recA, recB]))
        25 false = [] ∧
     write_filtered_output
        (get_skip_ids (flattenRecords (filteredRecords
          (get_skip_ids (flattenRecords [recA, recB]) 25 false) false [recA, recB]))
          25 false)
        false
        (flattenRecords (filteredRecords
          (get_skip_ids (flattenRecords [recA, recB]) 25 false) false [recA, recB])) =
      ((filteredRecords (get_skip_ids (flattenRecords [recA, recB]) 25 false) false
          [recA, recB]).map (fun r => joinNl (recordLines r))).flatten) :=
  ⟨by decide, by decide, by decide,
   filter_idempotent 25 false [recA, recB] _ (by decide) (by decide) (by decide)⟩

end FastqFilter
